import Mathlib

/-!
Verification of the shell-expression evaluator in
`cibuildwheel/bashlex_eval.py`.

The evaluator walks a bashlex syntax tree (word, parameter,
command-substitution, command/list, operator nodes), substitutes
parameter and command-substitution results into the word's source span,
re-tokenizes the result with Python's `shlex.split` (POSIX mode,
whitespace splitting), and joins the stripped tokens with single spaces.
The external process-spawning executor is modelled as a pluggable total
function, and the external bashlex parser as a function argument
(its behaviour on the concrete inputs used by the spec's examples is
modelled from the spec, see `parsesingleSpec`).
-/

set_option maxHeartbeats 2000000

set_option maxRecDepth 4096

/-- Quote and escape characters used by Python's shlex in POSIX mode.
Written via `Char.ofNat` codes: 39 is the single quote, 34 the double
quote, 92 the backslash. -/
def squoteChar : Char := Char.ofNat 39

/-- Double-quote character. -/
def dquoteChar : Char := Char.ofNat 34

/-- Backslash (the shlex escape character). -/
def backslashChar : Char := Char.ofNat 92

/-- Membership in shlex's whitespace set `' \t\r\n'`. -/
def isShWs (c : Char) : Bool :=
  c == ' ' || c == '\t' || c == '\r' || c == '\n'

/-- Membership in Python's `str.strip()` whitespace set
`' \t\n\r\x0b\x0c'`. -/
def isPyWs (c : Char) : Bool :=
  c == ' ' || c == '\t' || c == '\n' || c == '\r' ||
  c == Char.ofNat 11 || c == Char.ofNat 12

/-- Python's `str.strip()`: drop leading and trailing whitespace. -/
def pyStrip (s : String) : String :=
  String.mk (((s.data.dropWhile isPyWs).reverse.dropWhile isPyWs).reverse)

/-- Python's slice `s[a:b]` for `0 ≤ a ≤ b` (out-of-range ends clamp). -/
def sliceStr (s : String) (a b : Nat) : String :=
  String.mk ((s.data.drop a).take (b - a))

/-- A character that shlex treats as plain text: neither a quote nor the
escape character. -/
def plainChar (c : Char) : Bool :=
  !(c == squoteChar || c == dquoteChar || c == backslashChar)

instance {ε α : Type _} [DecidableEq ε] [DecidableEq α] :
    DecidableEq (Except ε α) := fun a b =>
  match a, b with
  | .ok a, .ok b =>
    if h : a = b then isTrue (h ▸ rfl) else isFalse fun hh => h (Except.ok.inj hh)
  | .error a, .error b =>
    if h : a = b then isTrue (h ▸ rfl) else isFalse fun hh => h (Except.error.inj hh)
  | .ok _, .error _ => isFalse Except.noConfusion
  | .error _, .ok _ => isFalse Except.noConfusion

/-- Errors raised by Python's `shlex.split` while tokenizing. -/
inductive ShlexError where
  | noClosingQuotation
  | noEscapedCharacter
deriving DecidableEq, Repr

/-- States of the `shlex` tokenizer restricted to the configuration used
by `shlex.split` (POSIX mode, `whitespace_split=True`, no comments):
between tokens, inside a token, inside single/double quotes, and after
the escape character outside quotes or inside double quotes. -/
inductive SState where
  | ws
  | word
  | squote
  | dquote
  | escWord
  | escDquote
deriving DecidableEq, Repr

/-- One run of Python's `shlex.split` tokenizer, carrying the state, the
current token, the POSIX `quoted` flag of the current token, and the
tokens emitted so far. Each step consumes one input character, exactly
as `shlex.read_token` does; at end of input an unterminated quote or
escape raises, and a pending token is emitted unless it is empty and
unquoted. -/
def shlexRun : SState → List Char → String → Bool → List String →
    Except ShlexError (List String)
  | .ws, [], tok, quoted, acc =>
    .ok (if tok ≠ "" ∨ quoted then acc ++ [tok] else acc)
  | .ws, c :: cs, tok, quoted, acc =>
    if isShWs c then
      if tok ≠ "" ∨ quoted then shlexRun .ws cs "" false (acc ++ [tok])
      else shlexRun .ws cs tok quoted acc
    else if c == backslashChar then shlexRun .escWord cs tok quoted acc
    else if c == squoteChar then shlexRun .squote cs tok quoted acc
    else if c == dquoteChar then shlexRun .dquote cs tok quoted acc
    else shlexRun .word cs (String.singleton c) quoted acc
  | .word, [], tok, quoted, acc =>
    .ok (if tok ≠ "" ∨ quoted then acc ++ [tok] else acc)
  | .word, c :: cs, tok, quoted, acc =>
    if isShWs c then
      if tok ≠ "" ∨ quoted then shlexRun .ws cs "" false (acc ++ [tok])
      else shlexRun .ws cs tok quoted acc
    else if c == squoteChar then shlexRun .squote cs tok quoted acc
    else if c == dquoteChar then shlexRun .dquote cs tok quoted acc
    else if c == backslashChar then shlexRun .escWord cs tok quoted acc
    else shlexRun .word cs (tok.push c) quoted acc
  | .squote, [], _, _, _ => .error .noClosingQuotation
  | .squote, c :: cs, tok, _, acc =>
    if c == squoteChar then shlexRun .word cs tok true acc
    else shlexRun .squote cs (tok.push c) true acc
  | .dquote, [], _, _, _ => .error .noClosingQuotation
  | .dquote, c :: cs, tok, _, acc =>
    if c == dquoteChar then shlexRun .word cs tok true acc
    else if c == backslashChar then shlexRun .escDquote cs tok true acc
    else shlexRun .dquote cs (tok.push c) true acc
  | .escWord, [], _, _, _ => .error .noEscapedCharacter
  | .escWord, c :: cs, tok, quoted, acc =>
    shlexRun .word cs (tok.push c) quoted acc
  | .escDquote, [], _, _, _ => .error .noEscapedCharacter
  | .escDquote, c :: cs, tok, quoted, acc =>
    if c == backslashChar || c == dquoteChar then
      shlexRun .dquote cs (tok.push c) quoted acc
    else shlexRun .dquote cs ((tok.push backslashChar).push c) quoted acc

/-- Python's `shlex.split(s)` (POSIX, whitespace splitting, comments
disabled), as called by `evaluate_word_node`. -/
def shlexSplit (s : String) : Except ShlexError (List String) :=
  shlexRun .ws s.data "" false []

/-- Whitespace tokenization of plain text (spec's field splitting on a
string without quote or escape characters): maximal runs of
non-whitespace characters. -/
def strTokens : List Char → List String
  | [] => []
  | c :: cs =>
    if isShWs c then strTokens cs else strTokensCont (String.singleton c) cs
where
  /-- Continue the current token `tok` through the remaining characters. -/
  strTokensCont (tok : String) : List Char → List String
    | [] => [tok]
    | c :: cs =>
      if isShWs c then tok :: strTokens cs else strTokensCont (tok.push c) cs

/-- The spec's description of step 4 of word evaluation: re-tokenize the
raw substituted value, strip each token, and rejoin with single spaces.
Stated for plain text, where shell-style tokens are exactly the
whitespace-separated runs. -/
def fieldSplitCollapse (s : String) : String :=
  String.intercalate " " ((strTokens s.data).map pyStrip)

-- quick sanity examples (tokenizer behaves like shlex.split)
example : shlexSplit "  a   b  " = .ok ["a", "b"] := by decide
example : shlexSplit "don't" = .error .noClosingQuotation := by decide
example : shlexSplit "say 'a b'" = .ok ["say", "a b"] := by decide
example : shlexSplit "" = .ok [] := by decide
example : fieldSplitCollapse "  a   b  " = "a b" := by decide

/-- The caller-supplied environment: a mapping from variable names to
string values with unique keys (a Python `dict`), modelled as an
association list looked up by first match. -/
abbrev Env := List (String × String)

/-- Python's `dict.get(name, '')` on the environment. -/
def envGet (environment : Env) (name : String) : String :=
  match environment.find? (fun p => p.1 == name) with
  | some p => p.2
  | none => ""

/-- The executor capability: a function that takes a shell command and
the environment, and returns the result (the source's
`EnvironmentExecutor`).  The default `local_environment_executor`
spawns a subprocess and is outside this pure model; every theorem
quantifies over the executor instead. -/
abbrev EnvironmentExecutor := String → Env → String

/-- A bashlex syntax-tree node, restricted to the kinds the evaluator
inspects. Every constructor carries its source span `[start, end)`;
`word`, `command`, `list` and `pipeline` nodes carry child parts,
`commandsubstitution` carries its inner command, `parameter` its
variable name, `operator` its symbol. `other` stands for any further
bashlex node kind (e.g. `pipe`, `redirect`, `tilde`), of which the
evaluator only ever reads the kind tag. -/
inductive BNode where
  | word : Nat → Nat → List BNode → BNode
  | commandsubstitution : Nat → Nat → BNode → BNode
  | parameter : Nat → Nat → String → BNode
  | command : Nat → Nat → List BNode → BNode
  | list : Nat → Nat → List BNode → BNode
  | pipeline : Nat → Nat → List BNode → BNode
  | operator : Nat → Nat → String → BNode
  | other : Nat → Nat → String → BNode

/-- The node's `kind` tag, as the Python code reads it. -/
def BNode.kind : BNode → String
  | .word .. => "word"
  | .commandsubstitution .. => "commandsubstitution"
  | .parameter .. => "parameter"
  | .command .. => "command"
  | .list .. => "list"
  | .pipeline .. => "pipeline"
  | .operator .. => "operator"
  | .other _ _ k => k

/-- The node's `parts` attribute. bashlex nodes of the remaining kinds
carry no parts; they are modelled as having none. -/
def BNode.parts : BNode → List BNode
  | .word _ _ ps | .command _ _ ps | .list _ _ ps | .pipeline _ _ ps => ps
  | _ => []

/-- Start of the node's source span `node.pos[0]`. -/
def BNode.posStart : BNode → Nat
  | .word s _ _ | .commandsubstitution s _ _ | .parameter s _ _
  | .command s _ _ | .list s _ _ | .pipeline s _ _
  | .operator s _ _ | .other s _ _ => s

/-- End of the node's source span `node.pos[1]`. -/
def BNode.posEnd : BNode → Nat
  | .word _ e _ | .commandsubstitution _ e _ | .parameter _ e _
  | .command _ e _ | .list _ e _ | .pipeline _ e _
  | .operator _ e _ | .other _ e _ => e

/-- The source's `NodeExecutionContext` named tuple: the environment,
the original input text, and the executor, threaded through every
recursive call. -/
structure NodeExecutionContext where
  environment : Env
  input : String
  executor : EnvironmentExecutor

/-- The error taxonomy of the evaluator (all `ValueError` in Python,
distinguished here by their message): a top-level expression with a part
count other than one; an unsupported node kind at dispatch; an operator
other than a semicolon in a compound command; an unsupported node kind
inside a compound command; a `shlex` tokenization failure during field
splitting. `executionFailure` stands for the executor capability itself
failing, which the pure model's total executors never do. -/
inductive EvalError where
  | malformedExpression (input : String)
  | unsupportedConstruct (kind : String)
  | unsupportedOperator (op : String)
  | unsupportedCompoundNode (kind : String)
  | tokenization (err : ShlexError)
  | executionFailure (msg : String)
deriving DecidableEq, Repr

/-- Python's `letters[i] = ''` for `i in range(ps, pe)` on the character
buffer of a word being reconstructed. -/
def blankRange (letters : List String) (ps pe : Nat) : List String :=
  (List.range (pe - ps)).foldl (fun ls k => ls.set (ps + k) "") letters

/-- The source's `evaluate_parameter_node`:
`context.environment.get(node.value, '')`. -/
def evaluate_parameter_node (value : String) (context : NodeExecutionContext) :
    String :=
  envGet context.environment value

mutual

/-- The source's `evaluate_node`: dispatch on the node kind to the word,
command-substitution, or parameter evaluator; any other kind is an
unsupported construct. -/
def evaluate_node (node : BNode) (context : NodeExecutionContext) :
    Except EvalError String :=
  match node with
  | .word ws we parts => evaluate_word_node ws we parts context
  | .commandsubstitution _ _ cmd => evaluate_command_node cmd context
  | .parameter _ _ value => .ok (evaluate_parameter_node value context)
  | node => .error (.unsupportedConstruct node.kind)
termination_by (sizeOf node, 0)

/-- The source's `evaluate_word_node`, destructured: given the word's
span `[word_start, word_end)` and its sub-parts, slice the word's text
out of the input, blank each sub-part's range and splice in its
evaluated result, then apply bash-like quote/whitespace treatment via
`shlex.split`, stripping each token and joining with single spaces. -/
def evaluate_word_node (word_start word_end : Nat) (parts : List BNode)
    (context : NodeExecutionContext) : Except EvalError String :=
  let word_string := sliceStr context.input word_start word_end
  let letters := word_string.data.map String.singleton
  match splice_word_parts parts word_start letters context with
  | .error err => .error err
  | .ok letters =>
    let value := String.join letters
    match shlexSplit value with
    | .error err => .error (.tokenization err)
    | .ok ws => .ok (String.intercalate " " (ws.map pyStrip))
termination_by (sizeOf parts, 1)

/-- The loop body of `evaluate_word_node`: for each part, blank out its
range relative to the word start and write the part's evaluated string
at the range's first position. -/
def splice_word_parts (parts : List BNode) (word_start : Nat)
    (letters : List String) (context : NodeExecutionContext) :
    Except EvalError (List String) :=
  match parts with
  | [] => .ok letters
  | part :: rest =>
    let part_start := part.posStart - word_start
    let part_end := part.posEnd - word_start
    let letters1 := blankRange letters part_start part_end
    match evaluate_node part context with
    | .error err => .error err
    | .ok v => splice_word_parts rest word_start (letters1.set part_start v) context
termination_by (sizeOf parts, 0)

/-- The source's `evaluate_command_node`: a command whose parts include
an operator node is compound, otherwise simple. Node kinds without a
`parts` attribute never reach this function (bashlex substitutions wrap
`command`/`list`/`pipeline` nodes); accessing their missing attribute
would fail, modelled as an unsupported construct. -/
def evaluate_command_node (node : BNode) (context : NodeExecutionContext) :
    Except EvalError String :=
  match node with
  | .word _ _ parts | .command _ _ parts | .list _ _ parts | .pipeline _ _ parts =>
    if parts.any (fun n => n.kind == "operator") then
      evaluate_nodes_as_compound_command parts context
    else
      evaluate_nodes_as_simple_command parts context
  | node => .error (.unsupportedConstruct node.kind)
termination_by (sizeOf node, 0)

/-- The source's `evaluate_nodes_as_compound_command`: walk the parts
accumulating the evaluated output of each `command` node, treating `;`
operators as no-ops and rejecting anything else. -/
def evaluate_nodes_as_compound_command (nodes : List BNode)
    (context : NodeExecutionContext) : Except EvalError String :=
  compound_go nodes context ""
termination_by (sizeOf nodes, 1)

/-- The accumulator loop of `evaluate_nodes_as_compound_command`. -/
def compound_go (nodes : List BNode) (context : NodeExecutionContext)
    (result : String) : Except EvalError String :=
  match nodes with
  | [] => .ok result
  | node :: rest =>
    match node with
    | .command s e parts =>
      match evaluate_command_node (.command s e parts) context with
      | .error err => .error err
      | .ok v => compound_go rest context (result ++ v)
    | .operator _ _ op =>
      if op = ";" then compound_go rest context result
      else .error (.unsupportedOperator op)
    | node => .error (.unsupportedCompoundNode node.kind)
termination_by (sizeOf nodes, 0)

/-- The source's `evaluate_nodes_as_simple_command`: evaluate every part
through `evaluate_node`, join the strings with single spaces, and hand
the command line and environment to the executor. -/
def evaluate_nodes_as_simple_command (nodes : List BNode)
    (context : NodeExecutionContext) : Except EvalError String :=
  match simple_words nodes context with
  | .error err => .error err
  | .ok words => .ok (context.executor (String.intercalate " " words) context.environment)
termination_by (sizeOf nodes, 1)

/-- The list comprehension of `evaluate_nodes_as_simple_command`:
evaluate each part in order, propagating the first error. -/
def simple_words (nodes : List BNode) (context : NodeExecutionContext) :
    Except EvalError (List String) :=
  match nodes with
  | [] => .ok []
  | node :: rest =>
    match evaluate_node node context with
    | .error err => .error err
    | .ok w =>
      match simple_words rest context with
      | .error err => .error err
      | .ok ws => .ok (w :: ws)
termination_by (sizeOf nodes, 0)

end

/-- The source's top-level `evaluate`, parameterized over the external
bashlex `parsesingle` capability: the empty string short-circuits to the
empty string; otherwise the parsed tree must have exactly one top-level
part, which is evaluated in a context holding the environment, the raw
input and the executor. -/
def evaluate (parsesingle : String → BNode) (value : String)
    (environment : Env) (executor : EnvironmentExecutor) :
    Except EvalError String :=
  if value = "" then .ok ""
  else
    let command_node := parsesingle value
    match command_node.parts with
    | [value_word_node] =>
      evaluate_node value_word_node
        ⟨environment, value, executor⟩
    | _ => .error (.malformedExpression value)

/-- Modelled from the spec: the external bashlex parser capability of
§6 ("parse(expression) -> SyntaxTree", words with embedded parameter and
command-substitution parts tracked by exact character offsets, command
nodes composed of word/operator parts), which is not part of this
repository's source. This fixture records the parser's output on the
concrete inputs the spec's examples use; every theorem about `evaluate`
quantifies over the parser and only assumes its value on the one input
involved, which witnesses discharge with this fixture. -/
def parsesingleSpec (value : String) : BNode :=
  if value = "$FOO" then
    .command 0 4 [.word 0 4 [.parameter 0 4 "FOO"]]
  else if value = "$MISSING" then
    .command 0 8 [.word 0 8 [.parameter 0 8 "MISSING"]]
  else if value = "$(anything)" then
    .command 0 11 [.word 0 11 [.commandsubstitution 0 11
      (.command 2 10 [.word 2 10 []])]]
  else if value = "$(cmd)" then
    .command 0 6 [.word 0 6 [.commandsubstitution 0 6
      (.command 2 5 [.word 2 5 []])]]
  else if value = "$(echo a; echo b)" then
    .command 0 17 [.word 0 17 [.commandsubstitution 0 17
      (.list 2 16 [.command 2 8 [.word 2 6 [], .word 7 8 []],
                   .operator 8 9 ";",
                   .command 10 16 [.word 10 14 [], .word 15 16 []]])]]
  else if value = "$(a && b)" then
    .command 0 9 [.word 0 9 [.commandsubstitution 0 9
      (.list 2 8 [.command 2 3 [.word 2 3 []],
                  .operator 4 6 "&&",
                  .command 7 8 [.word 7 8 []]])]]
  else if value = "a b" then
    .command 0 3 [.word 0 1 [], .word 2 3 []]
  else if value = "abc" then
    .command 0 3 [.word 0 3 []]
  else
    .other 0 0 "unmodelled"


/-- Appending strings concatenates their character data. -/
theorem strData_append (a b : String) : (a ++ b).data = a.data ++ b.data := by
  cases a; cases b; rfl

/-- Appending the empty string on the right is the identity. -/
theorem strAppend_empty (a : String) : a ++ "" = a := by
  cases a with
  | mk l => show String.mk (l ++ []) = String.mk l; rw [List.append_nil]

/-- String append is associative. -/
theorem strAppend_assoc (a b c : String) : a ++ b ++ c = a ++ (b ++ c) := by
  cases a; cases b; cases c
  show String.mk _ = String.mk _
  rw [List.append_assoc]

/-- Pushing a character never yields the empty string. -/
theorem push_ne_empty (s : String) (c : Char) : s.push c ≠ "" := by
  cases s with
  | mk l =>
    intro h
    have h2 := congrArg String.data h
    simp [String.push] at h2

/-- A singleton string is nonempty. -/
theorem singleton_ne_empty (c : Char) : String.singleton c ≠ "" :=
  push_ne_empty "" c

/-- Joining the singleton strings of a character list reassembles the
string with that data. -/
theorem join_map_singleton (l : List Char) :
    String.join (l.map String.singleton) = String.mk l := by
  rw [String.join_eq]
  congr 1
  induction l with
  | nil => rfl
  | cons c cs ih => simp only [List.map_cons, List.flatten_cons, ih]; rfl

/-- A plain character is not the escape or a quote. -/
theorem plainChar_facts {c : Char} (h : plainChar c = true) :
    ¬c = backslashChar ∧ ¬c = squoteChar ∧ ¬c = dquoteChar := by
  simp [plainChar] at h
  exact ⟨h.2, h.1.1, h.1.2⟩

/-- On plain text (no quote or escape characters) the shlex tokenizer
produces exactly the maximal whitespace-separated runs: the
between-tokens and inside-token states run out to `strTokens` and
`strTokensCont` respectively. -/
theorem shlexRun_plain : ∀ cs : List Char, (∀ c ∈ cs, plainChar c = true) →
    (∀ acc, shlexRun .ws cs "" false acc = .ok (acc ++ strTokens cs)) ∧
    (∀ tok acc, tok ≠ "" →
      shlexRun .word cs tok false acc =
        .ok (acc ++ strTokens.strTokensCont tok cs)) := by
  intro cs
  induction cs with
  | nil =>
    intro _
    constructor
    · intro acc; simp [shlexRun, strTokens]
    · intro tok acc htok
      simp [shlexRun, strTokens.strTokensCont, htok]
  | cons c cs ih =>
    intro hplain
    have hc := plainChar_facts (hplain c (List.mem_cons_self c cs))
    have hcs : ∀ x ∈ cs, plainChar x = true :=
      fun x hx => hplain x (List.mem_cons_of_mem c hx)
    have ih1 := (ih hcs).1
    have ih2 := (ih hcs).2
    by_cases hws : isShWs c = true
    · constructor
      · intro acc
        simp [shlexRun, hws, strTokens, ih1]
      · intro tok acc htok
        simp [shlexRun, hws, htok, strTokens.strTokensCont, ih1]
    · constructor
      · intro acc
        simp [shlexRun, hws, hc.1, hc.2.1, hc.2.2, strTokens,
          ih2 (String.singleton c) acc (singleton_ne_empty c)]
      · intro tok acc htok
        simp [shlexRun, hws, hc.1, hc.2.1, hc.2.2, strTokens.strTokensCont,
          ih2 (tok.push c) acc (push_ne_empty tok c)]

/-- `shlex.split` on plain text is whitespace field splitting. -/
theorem shlexSplit_plain (s : String) (h : ∀ c ∈ s.data, plainChar c = true) :
    shlexSplit s = .ok (strTokens s.data) := by
  simpa [shlexSplit] using (shlexRun_plain s.data h).1 []

/-- Evaluating a word node with no embedded sub-expressions whose source
text contains no quote or escape characters applies exactly the spec's
field splitting: tokenize on whitespace, strip each token, rejoin with
single spaces. -/
theorem evaluate_word_node_plain (ws we : Nat) (ctx : NodeExecutionContext)
    (h : ∀ c ∈ (sliceStr ctx.input ws we).data, plainChar c = true) :
    evaluate_word_node ws we [] ctx =
      .ok (fieldSplitCollapse (sliceStr ctx.input ws we)) := by
  rw [evaluate_word_node]
  simp only [splice_word_parts]
  rw [join_map_singleton]
  have hmk : String.mk (sliceStr ctx.input ws we).data = sliceStr ctx.input ws we := rfl
  rw [hmk, shlexSplit_plain _ h]
  rfl

/-- The simple-command word list is the monadic map of `evaluate_node`
over the parts, in order, stopping at the first error — the Python list
comprehension `[evaluate_node(part, context) for part in nodes]`. -/
theorem simple_words_eq_mapM (nodes : List BNode) (ctx : NodeExecutionContext) :
    simple_words nodes ctx = nodes.mapM (fun n => evaluate_node n ctx) := by
  induction nodes with
  | nil => rw [simple_words]; rfl
  | cons n rest ih =>
    rw [simple_words, List.mapM_cons, ih]
    cases evaluate_node n ctx with
    | error err =>
      simp [Bind.bind, Except.bind]
    | ok w =>
      cases rest.mapM (fun n => evaluate_node n ctx) with
      | error err => simp [Bind.bind, Except.bind, Pure.pure, Except.pure]
      | ok ws => simp [Bind.bind, Except.bind, Pure.pure, Except.pure]

/-- When every part of a simple command evaluates, the evaluator joins
the part strings with single spaces into a command line and returns the
executor's output on that command line and the context's environment,
verbatim. -/
theorem simple_command_executes (nodes : List BNode)
    (ctx : NodeExecutionContext) (words : List String)
    (h : simple_words nodes ctx = .ok words) :
    evaluate_nodes_as_simple_command nodes ctx =
      .ok (ctx.executor (String.intercalate " " words) ctx.environment) := by
  rw [evaluate_nodes_as_simple_command, h]

/-- Joining a nonempty list of strings prepends the head to the join of
the tail. -/
theorem strJoin_cons (s : String) (l : List String) :
    String.join (s :: l) = s ++ String.join l := by
  cases s with
  | mk d => rw [String.join_eq, String.join_eq]; rfl

/-- The compound accumulator appends each command's result by direct
string concatenation and skips semicolon operators, provided every
member is a command node that evaluates successfully or a `;` operator. -/
theorem compound_go_concat : ∀ (nodes : List BNode)
    (ctx : NodeExecutionContext) (acc : String),
    (∀ n ∈ nodes, (∃ s e ps, n = .command s e ps ∧
        ∃ v, evaluate_command_node n ctx = .ok v) ∨
      (∃ s e, n = .operator s e ";")) →
    compound_go nodes ctx acc =
      .ok (acc ++ String.join (nodes.filterMap (fun n =>
        match n with
        | .command s e ps => (evaluate_command_node (.command s e ps) ctx).toOption
        | _ => none))) := by
  intro nodes
  induction nodes with
  | nil =>
    intro ctx acc _
    simp [compound_go, String.join, strAppend_empty]
  | cons node rest ih =>
    intro ctx acc hmem
    have htail := fun n hn => hmem n (List.mem_cons_of_mem node hn)
    rcases hmem node (List.mem_cons_self node rest) with
      ⟨s, e, ps, hn, v, hv⟩ | ⟨s, e, hn⟩
    · subst hn
      have ihh := ih ctx (acc ++ v) htail
      simp only [compound_go, hv, ihh, List.filterMap_cons, Except.toOption,
        strJoin_cons]
      rw [strAppend_assoc]
    · subst hn
      rw [compound_go]
      simp only [if_pos rfl]
      rw [ih ctx acc htail]
      simp [List.filterMap_cons]

/-- If a compound command's parts are command and operator nodes, every
command part evaluates successfully, and some operator is not the
semicolon, then evaluation fails with `UnsupportedConstruct` naming the
symbol of a non-semicolon operator among the parts, whatever the command
parts evaluate to. Stated on the accumulator loop so the accumulated
prefix is arbitrary. -/
theorem compound_go_bad_operator : ∀ (nodes : List BNode)
    (ctx : NodeExecutionContext) (acc : String),
    (∀ n ∈ nodes, (∃ s e ps, n = .command s e ps) ∨
      (∃ s e op, n = .operator s e op)) →
    (∀ s e ps, (BNode.command s e ps) ∈ nodes →
      ∃ v, evaluate_command_node (.command s e ps) ctx = .ok v) →
    (∃ n ∈ nodes, ∃ s e op, n = .operator s e op ∧ op ≠ ";") →
    ∃ s e op, (BNode.operator s e op) ∈ nodes ∧ op ≠ ";" ∧
      compound_go nodes ctx acc = .error (.unsupportedOperator op) := by
  intro nodes
  induction nodes with
  | nil =>
    intro ctx acc _ _ hbad
    rcases hbad with ⟨n, hn, _⟩
    exact absurd hn (List.not_mem_nil n)
  | cons node rest ih =>
    intro ctx acc hshape hok hbad
    rcases hshape node (List.mem_cons_self node rest) with
      ⟨s, e, ps, hn⟩ | ⟨s, e, op, hn⟩
    · subst hn
      obtain ⟨v, hv⟩ := hok s e ps (List.mem_cons_self _ _)
      have hbad' : ∃ n ∈ rest, ∃ s e op, n = .operator s e op ∧ op ≠ ";" := by
        rcases hbad with ⟨n, hn, s', e', op', hop, hne⟩
        rcases List.mem_cons.mp hn with heq | hmem
        · exact absurd (heq ▸ hop) (by simp)
        · exact ⟨n, hmem, s', e', op', hop, hne⟩
      obtain ⟨s', e', op', hmem, hne, heq⟩ :=
        ih ctx (acc ++ v)
          (fun n hn => hshape n (List.mem_cons_of_mem _ hn))
          (fun s e ps hn => hok s e ps (List.mem_cons_of_mem _ hn))
          hbad'
      refine ⟨s', e', op', List.mem_cons_of_mem _ hmem, hne, ?_⟩
      simp only [compound_go, hv, heq]
    · subst hn
      by_cases hsemi : op = ";"
      · subst hsemi
        have hbad' : ∃ n ∈ rest, ∃ s e op, n = .operator s e op ∧ op ≠ ";" := by
          rcases hbad with ⟨n, hn, s', e', op', hop, hne⟩
          rcases List.mem_cons.mp hn with heq | hmem
          · subst heq
            cases hop
            exact absurd rfl hne
          · exact ⟨n, hmem, s', e', op', hop, hne⟩
        obtain ⟨s', e', op', hmem, hne, heq⟩ :=
          ih ctx acc
            (fun n hn => hshape n (List.mem_cons_of_mem _ hn))
            (fun s e ps hn => hok s e ps (List.mem_cons_of_mem _ hn))
            hbad'
        refine ⟨s', e', op', List.mem_cons_of_mem _ hmem, hne, ?_⟩
        rw [compound_go]
        simp only [if_pos rfl]
        exact heq
      · refine ⟨s, e, op, List.mem_cons_self _ _, hsemi, ?_⟩
        rw [compound_go]
        simp only [if_neg hsemi]

/-- Looking a name up in an environment none of whose keys is the name
yields the empty string (the `dict.get` default). -/
theorem envGet_absent (env : Env) (name : String)
    (h : ∀ p ∈ env, p.1 ≠ name) : envGet env name = "" := by
  rw [envGet, List.find?_eq_none.mpr]
  intro p hp
  simpa using h p hp

/-- Looking a name up in an environment finds the first binding of that
name. -/
theorem envGet_present (pre post : Env) (name value : String)
    (h : ∀ p ∈ pre, p.1 ≠ name) :
    envGet (pre ++ (name, value) :: post) name = value := by
  induction pre with
  | nil => simp [envGet]
  | cons p pre ih =>
    rw [envGet, List.cons_append, List.find?_cons_of_neg]
    · exact ih fun q hq => h q (List.mem_cons_of_mem p hq)
    · simpa using h p (List.mem_cons_self p pre)

/-- The executor capability in the mutable-environment model. Python
passes the environment dict to the executor by reference, so an executor
could in principle mutate it; this richer executor type returns the
output together with the environment it leaves behind. -/
abbrev EnvironmentExecutorM := String → Env → String × Env

/-- Execution context of the mutable-environment model: the (mutable)
environment is threaded as state instead of being stored here. -/
structure NodeExecutionContextM where
  input : String
  executor : EnvironmentExecutorM

mutual

/-- `evaluate_node` in the mutable-environment model: the environment is
threaded through every recursive call, since in Python all calls share
one dict reference. A parameter lookup reads the current state and
leaves it unchanged, exactly like `dict.get`. -/
def evaluate_nodeM (node : BNode) (context : NodeExecutionContextM)
    (env : Env) : Except EvalError String × Env :=
  match node with
  | .word ws we parts => evaluate_word_nodeM ws we parts context env
  | .commandsubstitution _ _ cmd => evaluate_command_nodeM cmd context env
  | .parameter _ _ value => (.ok (envGet env value), env)
  | node => (.error (.unsupportedConstruct node.kind), env)
termination_by (sizeOf node, 0)

/-- `evaluate_word_node` in the mutable-environment model. -/
def evaluate_word_nodeM (word_start word_end : Nat) (parts : List BNode)
    (context : NodeExecutionContextM) (env : Env) :
    Except EvalError String × Env :=
  let word_string := sliceStr context.input word_start word_end
  let letters := word_string.data.map String.singleton
  match splice_word_partsM parts word_start letters context env with
  | (.error err, env) => (.error err, env)
  | (.ok letters, env) =>
    match shlexSplit (String.join letters) with
    | .error err => (.error (.tokenization err), env)
    | .ok ws => (.ok (String.intercalate " " (ws.map pyStrip)), env)
termination_by (sizeOf parts, 1)

/-- The word-splicing loop in the mutable-environment model. -/
def splice_word_partsM (parts : List BNode) (word_start : Nat)
    (letters : List String) (context : NodeExecutionContextM) (env : Env) :
    Except EvalError (List String) × Env :=
  match parts with
  | [] => (.ok letters, env)
  | part :: rest =>
    let part_start := part.posStart - word_start
    let part_end := part.posEnd - word_start
    let letters1 := blankRange letters part_start part_end
    match evaluate_nodeM part context env with
    | (.error err, env) => (.error err, env)
    | (.ok v, env) =>
      splice_word_partsM rest word_start (letters1.set part_start v) context env
termination_by (sizeOf parts, 0)

/-- `evaluate_command_node` in the mutable-environment model. -/
def evaluate_command_nodeM (node : BNode) (context : NodeExecutionContextM)
    (env : Env) : Except EvalError String × Env :=
  match node with
  | .word _ _ parts | .command _ _ parts | .list _ _ parts | .pipeline _ _ parts =>
    if parts.any (fun n => n.kind == "operator") then
      evaluate_nodes_as_compound_commandM parts context env
    else
      evaluate_nodes_as_simple_commandM parts context env
  | node => (.error (.unsupportedConstruct node.kind), env)
termination_by (sizeOf node, 0)

/-- `evaluate_nodes_as_compound_command` in the mutable-environment
model. -/
def evaluate_nodes_as_compound_commandM (nodes : List BNode)
    (context : NodeExecutionContextM) (env : Env) :
    Except EvalError String × Env :=
  compound_goM nodes context "" env
termination_by (sizeOf nodes, 1)

/-- The compound accumulator loop in the mutable-environment model. -/
def compound_goM (nodes : List BNode) (context : NodeExecutionContextM)
    (result : String) (env : Env) : Except EvalError String × Env :=
  match nodes with
  | [] => (.ok result, env)
  | node :: rest =>
    match node with
    | .command s e parts =>
      match evaluate_command_nodeM (.command s e parts) context env with
      | (.error err, env) => (.error err, env)
      | (.ok v, env) => compound_goM rest context (result ++ v) env
    | .operator _ _ op =>
      if op = ";" then compound_goM rest context result env
      else (.error (.unsupportedOperator op), env)
    | node => (.error (.unsupportedCompoundNode node.kind), env)
termination_by (sizeOf nodes, 0)

/-- `evaluate_nodes_as_simple_command` in the mutable-environment model:
the executor receives the current environment and may hand back a
changed one. -/
def evaluate_nodes_as_simple_commandM (nodes : List BNode)
    (context : NodeExecutionContextM) (env : Env) :
    Except EvalError String × Env :=
  match simple_wordsM nodes context env with
  | (.error err, env) => (.error err, env)
  | (.ok words, env) =>
    match context.executor (String.intercalate " " words) env with
    | (out, env) => (.ok out, env)
termination_by (sizeOf nodes, 1)

/-- The simple-command word loop in the mutable-environment model. -/
def simple_wordsM (nodes : List BNode) (context : NodeExecutionContextM)
    (env : Env) : Except EvalError (List String) × Env :=
  match nodes with
  | [] => (.ok [], env)
  | node :: rest =>
    match evaluate_nodeM node context env with
    | (.error err, env) => (.error err, env)
    | (.ok w, env) =>
      match simple_wordsM rest context env with
      | (.error err, env) => (.error err, env)
      | (.ok ws, env) => (.ok (w :: ws), env)
termination_by (sizeOf nodes, 0)

end

/-- Top-level `evaluate` in the mutable-environment model: identical
control flow to `evaluate`, returning the final state of the
environment alongside the result. -/
def evaluateM (parsesingle : String → BNode) (value : String)
    (environment : Env) (executor : EnvironmentExecutorM) :
    Except EvalError String × Env :=
  if value = "" then (.ok "", environment)
  else
    match (parsesingle value).parts with
    | [value_word_node] =>
      evaluate_nodeM value_word_node ⟨value, executor⟩ environment
    | _ => (.error (.malformedExpression value), environment)

mutual

/-- Node evaluation only reads the environment: with an executor that
does not mutate it, the environment state is returned unchanged. -/
theorem evaluate_nodeM_env (node : BNode) (context : NodeExecutionContextM)
    (env : Env) (hex : ∀ c e, (context.executor c e).2 = e) :
    (evaluate_nodeM node context env).2 = env := by
  cases node with
  | word ws we parts =>
    rw [evaluate_nodeM]
    exact evaluate_word_nodeM_env ws we parts context env hex
  | commandsubstitution s e cmd =>
    rw [evaluate_nodeM]
    exact evaluate_command_nodeM_env cmd context env hex
  | parameter s e value => rw [evaluate_nodeM]
  | command s e ps => rw [evaluate_nodeM] <;> (intro _ _ _ h; exact BNode.noConfusion h)
  | list s e ps => rw [evaluate_nodeM] <;> (intro _ _ _ h; exact BNode.noConfusion h)
  | pipeline s e ps => rw [evaluate_nodeM] <;> (intro _ _ _ h; exact BNode.noConfusion h)
  | operator s e op => rw [evaluate_nodeM] <;> (intro _ _ _ h; exact BNode.noConfusion h)
  | other s e k => rw [evaluate_nodeM] <;> (intro _ _ _ h; exact BNode.noConfusion h)
termination_by (sizeOf node, 1)

/-- Word evaluation only reads the environment. -/
theorem evaluate_word_nodeM_env (word_start word_end : Nat)
    (parts : List BNode) (context : NodeExecutionContextM) (env : Env)
    (hex : ∀ c e, (context.executor c e).2 = e) :
    (evaluate_word_nodeM word_start word_end parts context env).2 = env := by
  have hsp := splice_word_partsM_env parts word_start
    ((sliceStr context.input word_start word_end).data.map String.singleton)
    context env hex
  rw [evaluate_word_nodeM]
  split
  · next err env1 heq =>
    rw [heq] at hsp
    exact hsp
  · next letters1 env1 heq =>
    rw [heq] at hsp
    split <;> exact hsp
termination_by (sizeOf parts, 2)

/-- The word-splicing loop only reads the environment. -/
theorem splice_word_partsM_env (parts : List BNode) (word_start : Nat)
    (letters : List String) (context : NodeExecutionContextM) (env : Env)
    (hex : ∀ c e, (context.executor c e).2 = e) :
    (splice_word_partsM parts word_start letters context env).2 = env := by
  cases parts with
  | nil => rw [splice_word_partsM]
  | cons part rest =>
    have hn := evaluate_nodeM_env part context env hex
    rw [splice_word_partsM]
    split
    · next err env1 heq =>
      rw [heq] at hn
      exact hn
    · next v env1 heq =>
      rw [heq] at hn
      rw [splice_word_partsM_env rest word_start _ context env1 hex]
      exact hn
termination_by (sizeOf parts, 0)

/-- Command evaluation only reads the environment. -/
theorem evaluate_command_nodeM_env (node : BNode)
    (context : NodeExecutionContextM) (env : Env)
    (hex : ∀ c e, (context.executor c e).2 = e) :
    (evaluate_command_nodeM node context env).2 = env := by
  cases node with
  | word s e parts =>
    rw [evaluate_command_nodeM]
    split
    · exact evaluate_nodes_as_compound_commandM_env parts context env hex
    · exact evaluate_nodes_as_simple_commandM_env parts context env hex
  | command s e parts =>
    rw [evaluate_command_nodeM]
    split
    · exact evaluate_nodes_as_compound_commandM_env parts context env hex
    · exact evaluate_nodes_as_simple_commandM_env parts context env hex
  | list s e parts =>
    rw [evaluate_command_nodeM]
    split
    · exact evaluate_nodes_as_compound_commandM_env parts context env hex
    · exact evaluate_nodes_as_simple_commandM_env parts context env hex
  | pipeline s e parts =>
    rw [evaluate_command_nodeM]
    split
    · exact evaluate_nodes_as_compound_commandM_env parts context env hex
    · exact evaluate_nodes_as_simple_commandM_env parts context env hex
  | commandsubstitution s e cmd => rw [evaluate_command_nodeM] <;> (intro _ _ _ h; exact BNode.noConfusion h)
  | parameter s e value => rw [evaluate_command_nodeM] <;> (intro _ _ _ h; exact BNode.noConfusion h)
  | operator s e op => rw [evaluate_command_nodeM] <;> (intro _ _ _ h; exact BNode.noConfusion h)
  | other s e k => rw [evaluate_command_nodeM] <;> (intro _ _ _ h; exact BNode.noConfusion h)
termination_by (sizeOf node, 0)

/-- Compound-command evaluation only reads the environment. -/
theorem evaluate_nodes_as_compound_commandM_env (nodes : List BNode)
    (context : NodeExecutionContextM) (env : Env)
    (hex : ∀ c e, (context.executor c e).2 = e) :
    (evaluate_nodes_as_compound_commandM nodes context env).2 = env := by
  rw [evaluate_nodes_as_compound_commandM]
  exact compound_goM_env nodes context "" env hex
termination_by (sizeOf nodes, 2)

/-- The compound accumulator loop only reads the environment. -/
theorem compound_goM_env (nodes : List BNode)
    (context : NodeExecutionContextM) (result : String) (env : Env)
    (hex : ∀ c e, (context.executor c e).2 = e) :
    (compound_goM nodes context result env).2 = env := by
  cases nodes with
  | nil => rw [compound_goM]
  | cons node rest =>
    cases node with
    | command s e parts =>
      have hc := evaluate_command_nodeM_env (.command s e parts) context env hex
      rw [compound_goM]
      split
      · next err env1 heq =>
        rw [heq] at hc
        exact hc
      · next v env1 heq =>
        rw [heq] at hc
        rw [compound_goM_env rest context (result ++ v) env1 hex]
        exact hc
    | operator s e op =>
      rw [compound_goM]
      split
      · exact compound_goM_env rest context result env hex
      · rfl
    | word s e ps => rw [compound_goM] <;> (intro _ _ _ h; exact BNode.noConfusion h)
    | commandsubstitution s e cmd => rw [compound_goM] <;> (intro _ _ _ h; exact BNode.noConfusion h)
    | parameter s e value => rw [compound_goM] <;> (intro _ _ _ h; exact BNode.noConfusion h)
    | list s e ps => rw [compound_goM] <;> (intro _ _ _ h; exact BNode.noConfusion h)
    | pipeline s e ps => rw [compound_goM] <;> (intro _ _ _ h; exact BNode.noConfusion h)
    | other s e k => rw [compound_goM] <;> (intro _ _ _ h; exact BNode.noConfusion h)
termination_by (sizeOf nodes, 0)

/-- Simple-command evaluation with a non-mutating executor leaves the
environment unchanged. -/
theorem evaluate_nodes_as_simple_commandM_env (nodes : List BNode)
    (context : NodeExecutionContextM) (env : Env)
    (hex : ∀ c e, (context.executor c e).2 = e) :
    (evaluate_nodes_as_simple_commandM nodes context env).2 = env := by
  have hw := simple_wordsM_env nodes context env hex
  rw [evaluate_nodes_as_simple_commandM]
  split
  · next err env1 heq =>
    rw [heq] at hw
    exact hw
  · next words env1 heq =>
    rw [heq] at hw
    split
    next out env2 heq2 =>
      have h3 : env2 = env1 := by
        have h4 := hex (String.intercalate " " words) env1
        rw [heq2] at h4
        exact h4
      have hw2 : env1 = env := hw
      show env2 = env
      exact h3.trans hw2
termination_by (sizeOf nodes, 2)

/-- The simple-command word loop only reads the environment. -/
theorem simple_wordsM_env (nodes : List BNode)
    (context : NodeExecutionContextM) (env : Env)
    (hex : ∀ c e, (context.executor c e).2 = e) :
    (simple_wordsM nodes context env).2 = env := by
  cases nodes with
  | nil => rw [simple_wordsM]
  | cons node rest =>
    have hn := evaluate_nodeM_env node context env hex
    rw [simple_wordsM]
    split
    · next err env1 heq =>
      rw [heq] at hn
      exact hn
    · next w env1 heq =>
      rw [heq] at hn
      have hr := simple_wordsM_env rest context env1 hex
      split
      · next err env2 heq2 =>
        rw [heq2] at hr
        rw [hr]
        exact hn
      · next ws env2 heq2 =>
        rw [heq2] at hr
        rw [hr]
        exact hn
termination_by (sizeOf nodes, 0)

end

/-- An empty string prepended by append is the identity. -/
theorem strEmpty_append (s : String) : "" ++ s = s := by
  cases s with
  | mk l => show String.mk ([] ++ l) = String.mk l; rw [List.nil_append]

/-- C1: Word evaluation applies field splitting and quote stripping to
the raw substituted value: the spliced string is re-tokenized under
shell quoting rules, each token is stripped of leading/trailing
whitespace, and tokens are rejoined with single spaces, so internal
whitespace runs collapse and edges are trimmed; on plain text the
tokens are exactly the whitespace-separated runs. In particular the
word evaluator sends the literal "  a   b  " (under the empty
environment) to "a b", and so does the command-substitution output
path. -/
theorem claim_c1_word_field_splitting :
    (∀ (ctx : NodeExecutionContext) (ws we : Nat),
      (∀ c ∈ (sliceStr ctx.input ws we).data, plainChar c = true) →
      evaluate_word_node ws we [] ctx =
        .ok (fieldSplitCollapse (sliceStr ctx.input ws we))) ∧
    (∀ parse : String → BNode,
      parse "$(cmd)" = .command 0 6 [.word 0 6 [.commandsubstitution 0 6
        (.command 2 5 [.word 2 5 []])]] →
      evaluate parse "$(cmd)" [] (fun _ _ => "  a   b  ") = .ok "a b") ∧
    (evaluate_word_node 0 9 []
      ⟨[], "  a   b  ", fun _ _ => ""⟩ = .ok "a b") ∧
    fieldSplitCollapse "  a   b  " = "a b" := by
  refine ⟨fun ctx ws we h => evaluate_word_node_plain ws we ctx h, ?_, ?_, by decide⟩
  · intro parse hparse
    simp only [evaluate, hparse, evaluate_node, evaluate_word_node, splice_word_parts,
      evaluate_command_node, evaluate_nodes_as_compound_command, compound_go,
      evaluate_nodes_as_simple_command, simple_words, evaluate_parameter_node,
      BNode.parts, BNode.kind, BNode.posStart, BNode.posEnd, List.any,
      String.reduceEq, String.reduceBEq, Char.reduceBEq, Char.reduceEq, reduceIte,
      Bool.or_false, Bool.false_or]
    decide
  · simp only [evaluate_word_node, splice_word_parts]
    decide

/-- Witness for C1: the plain-word hypothesis and the parser hypothesis
hold at the concrete inputs. -/
theorem claim_c1_witness :
    evaluate_word_node 0 9 [] ⟨[], "  a   b  ", fun _ _ => ""⟩ =
      .ok (fieldSplitCollapse (sliceStr "  a   b  " 0 9)) ∧
    evaluate parsesingleSpec "$(cmd)" [] (fun _ _ => "  a   b  ") = .ok "a b" :=
  ⟨claim_c1_word_field_splitting.1 ⟨[], "  a   b  ", fun _ _ => ""⟩ 0 9 (by decide),
   claim_c1_word_field_splitting.2.1 parsesingleSpec rfl⟩

/-- C2: Simple-command evaluation evaluates every part through the node
evaluator (the word list is the monadic map of `evaluate_node`), joins
the per-part strings with single spaces into one command line, invokes
the context's executor with that command line and the context's
environment, and returns the executor's output verbatim; a
command-substitution node dispatches to the command evaluator, so for an
executor stub returning "X Y", `evaluate "$(anything)" {}` returns
"X Y". -/
theorem claim_c2_simple_command_delegation :
    (∀ (nodes : List BNode) (ctx : NodeExecutionContext),
      simple_words nodes ctx = nodes.mapM (fun n => evaluate_node n ctx)) ∧
    (∀ (nodes : List BNode) (ctx : NodeExecutionContext) (words : List String),
      simple_words nodes ctx = .ok words →
      evaluate_nodes_as_simple_command nodes ctx =
        .ok (ctx.executor (String.intercalate " " words) ctx.environment)) ∧
    (∀ (s e : Nat) (cmd : BNode) (ctx : NodeExecutionContext),
      evaluate_node (.commandsubstitution s e cmd) ctx =
        evaluate_command_node cmd ctx) ∧
    (∀ parse : String → BNode,
      parse "$(anything)" = .command 0 11 [.word 0 11 [.commandsubstitution 0 11
        (.command 2 10 [.word 2 10 []])]] →
      evaluate parse "$(anything)" [] (fun _ _ => "X Y") = .ok "X Y") := by
  refine ⟨simple_words_eq_mapM, simple_command_executes, ?_, ?_⟩
  · intro s e cmd ctx
    rw [evaluate_node]
  · intro parse hparse
    simp only [evaluate, hparse, evaluate_node, evaluate_word_node, splice_word_parts,
      evaluate_command_node, evaluate_nodes_as_compound_command, compound_go,
      evaluate_nodes_as_simple_command, simple_words, evaluate_parameter_node,
      BNode.parts, BNode.kind, BNode.posStart, BNode.posEnd, List.any,
      String.reduceEq, String.reduceBEq, Char.reduceBEq, Char.reduceEq, reduceIte,
      Bool.or_false, Bool.false_or]
    decide

/-- Witness for C2: the simple-command hypothesis and the parser
hypothesis hold at concrete inputs. -/
theorem claim_c2_witness :
    evaluate_nodes_as_simple_command [] ⟨[], "", fun _ _ => "X Y"⟩ =
      .ok ((fun (_ : String) (_ : Env) => "X Y") (String.intercalate " " []) []) ∧
    evaluate parsesingleSpec "$(anything)" [] (fun _ _ => "X Y") = .ok "X Y" :=
  ⟨claim_c2_simple_command_delegation.2.1 [] ⟨[], "", fun _ _ => "X Y"⟩ []
    (by rw [simple_words]),
   claim_c2_simple_command_delegation.2.2.2 parsesingleSpec rfl⟩

/-- C3: Compound-command evaluation walks the parts left to right,
appending each sub-command's evaluated string to the accumulator by
direct concatenation with no separator, treating each `;` operator as a
no-op; with an executor echoing the command line,
`evaluate "$(echo a; echo b)" {}` yields the two outputs concatenated
with no separator, in left-to-right order. -/
theorem claim_c3_compound_concatenation :
    (∀ (nodes : List BNode) (ctx : NodeExecutionContext),
      (∀ n ∈ nodes, (∃ s e ps, n = .command s e ps ∧
          ∃ v, evaluate_command_node n ctx = .ok v) ∨
        (∃ s e, n = .operator s e ";")) →
      evaluate_nodes_as_compound_command nodes ctx =
        .ok (String.join (nodes.filterMap (fun n =>
          match n with
          | .command s e ps =>
            (evaluate_command_node (.command s e ps) ctx).toOption
          | _ => none)))) ∧
    (∀ parse : String → BNode,
      parse "$(echo a; echo b)" = .command 0 17 [.word 0 17
        [.commandsubstitution 0 17
          (.list 2 16 [.command 2 8 [.word 2 6 [], .word 7 8 []],
                       .operator 8 9 ";",
                       .command 10 16 [.word 10 14 [], .word 15 16 []]])]] →
      evaluate parse "$(echo a; echo b)" [] (fun c _ => c) =
        .ok "echo aecho b") := by
  constructor
  · intro nodes ctx h
    rw [evaluate_nodes_as_compound_command, compound_go_concat nodes ctx "" h,
      strEmpty_append]
  · intro parse hparse
    simp only [evaluate, hparse, evaluate_node, evaluate_word_node, splice_word_parts,
      evaluate_command_node, evaluate_nodes_as_compound_command, compound_go,
      evaluate_nodes_as_simple_command, simple_words, evaluate_parameter_node,
      BNode.parts, BNode.kind, BNode.posStart, BNode.posEnd, List.any,
      String.reduceEq, String.reduceBEq, Char.reduceBEq, Char.reduceEq, reduceIte,
      Bool.or_false, Bool.false_or]
    decide

/-- Witness for C3: the all-parts-evaluate hypothesis and the parser
hypothesis hold at concrete inputs. -/
theorem claim_c3_witness :
    evaluate_nodes_as_compound_command [] ⟨[], "", fun c _ => c⟩ =
      .ok (String.join (([] : List BNode).filterMap (fun n =>
        match n with
        | .command s e ps =>
          (evaluate_command_node (.command s e ps) ⟨[], "", fun c _ => c⟩).toOption
        | _ => none))) ∧
    evaluate parsesingleSpec "$(echo a; echo b)" [] (fun c _ => c) =
      .ok "echo aecho b" :=
  ⟨claim_c3_compound_concatenation.1 [] ⟨[], "", fun c _ => c⟩
    (fun n hn => absurd hn (List.not_mem_nil n)),
   claim_c3_compound_concatenation.2 parsesingleSpec rfl⟩

/-- C4: A compound command whose parts are command and operator nodes
and which contains an operator other than `;` fails with an
unsupported-operator error naming such an operator's symbol, whatever
values the command operands evaluate to; concretely,
`evaluate "$(a && b)" {}` fails naming "&&". -/
theorem claim_c4_unsupported_operator :
    (∀ (nodes : List BNode) (ctx : NodeExecutionContext),
      (∀ n ∈ nodes, (∃ s e ps, n = .command s e ps) ∨
        (∃ s e op, n = .operator s e op)) →
      (∀ s e ps, (BNode.command s e ps) ∈ nodes →
        ∃ v, evaluate_command_node (.command s e ps) ctx = .ok v) →
      (∃ n ∈ nodes, ∃ s e op, n = .operator s e op ∧ op ≠ ";") →
      ∃ s e op, (BNode.operator s e op) ∈ nodes ∧ op ≠ ";" ∧
        evaluate_nodes_as_compound_command nodes ctx =
          .error (.unsupportedOperator op)) ∧
    (∀ parse : String → BNode,
      parse "$(a && b)" = .command 0 9 [.word 0 9 [.commandsubstitution 0 9
        (.list 2 8 [.command 2 3 [.word 2 3 []],
                    .operator 4 6 "&&",
                    .command 7 8 [.word 7 8 []]])]] →
      evaluate parse "$(a && b)" [] (fun c _ => c) =
        .error (.unsupportedOperator "&&")) := by
  constructor
  · intro nodes ctx hshape hok hbad
    obtain ⟨s, e, op, hmem, hne, heq⟩ :=
      compound_go_bad_operator nodes ctx "" hshape hok hbad
    refine ⟨s, e, op, hmem, hne, ?_⟩
    rw [evaluate_nodes_as_compound_command]
    exact heq
  · intro parse hparse
    simp only [evaluate, hparse, evaluate_node, evaluate_word_node, splice_word_parts,
      evaluate_command_node, evaluate_nodes_as_compound_command, compound_go,
      evaluate_nodes_as_simple_command, simple_words, evaluate_parameter_node,
      BNode.parts, BNode.kind, BNode.posStart, BNode.posEnd, List.any,
      String.reduceEq, String.reduceBEq, Char.reduceBEq, Char.reduceEq, reduceIte,
      Bool.or_false, Bool.false_or]
    decide

/-- Witness for C4: a concrete compound part list with a successful
command operand and a `&&` operator satisfies the hypotheses, and the
parser hypothesis holds of the spec-modelled parser. -/
theorem claim_c4_witness :
    (∃ s e op,
      (BNode.operator s e op) ∈
        [BNode.command 0 1 [.word 0 1 []], BNode.operator 1 2 "&&"] ∧
      op ≠ ";" ∧
      evaluate_nodes_as_compound_command
        [BNode.command 0 1 [.word 0 1 []], BNode.operator 1 2 "&&"]
        ⟨[], "x", fun c _ => c⟩ = .error (.unsupportedOperator op)) ∧
    evaluate parsesingleSpec "$(a && b)" [] (fun c _ => c) =
      .error (.unsupportedOperator "&&") :=
  ⟨claim_c4_unsupported_operator.1
    [BNode.command 0 1 [.word 0 1 []], BNode.operator 1 2 "&&"]
    ⟨[], "x", fun c _ => c⟩
    (by
      intro n hn
      rcases List.mem_cons.mp hn with h | hn2
      · exact Or.inl ⟨0, 1, [.word 0 1 []], h⟩
      · rcases List.mem_cons.mp hn2 with h | hn3
        · exact Or.inr ⟨1, 2, "&&", h⟩
        · exact absurd hn3 (List.not_mem_nil n))
    (by
      intro s e ps hmem
      rcases List.mem_cons.mp hmem with h | hm2
      · cases h
        refine ⟨"x", ?_⟩
        simp only [evaluate_node, evaluate_word_node, splice_word_parts,
          evaluate_command_node, evaluate_nodes_as_compound_command, compound_go,
          evaluate_nodes_as_simple_command, simple_words,
          BNode.parts, BNode.kind, BNode.posStart, BNode.posEnd, List.any,
          String.reduceEq, String.reduceBEq, Char.reduceBEq, Char.reduceEq,
          reduceIte, Bool.or_false, Bool.false_or]
        decide
      · rcases List.mem_cons.mp hm2 with h | hm3
        · exact absurd h (by intro hh; exact BNode.noConfusion hh)
        · exact absurd hm3 (List.not_mem_nil _))
    ⟨BNode.operator 1 2 "&&", by simp, 1, 2, "&&", rfl, by decide⟩,
   claim_c4_unsupported_operator.2 parsesingleSpec rfl⟩

/-- C5: For every non-empty input, the top-level evaluator requires the
parsed tree to have exactly one top-level part; any other count fails
with `MalformedExpression` naming the offending input, for every
executor (none is invoked) and with no partial result. -/
theorem claim_c5_single_word_requirement :
    ∀ (parse : String → BNode) (value : String) (env : Env)
      (ex : EnvironmentExecutor),
    value ≠ "" →
    (parse value).parts.length ≠ 1 →
    evaluate parse value env ex = .error (.malformedExpression value) := by
  intro parse value env ex h0 h1
  simp only [evaluate, if_neg h0]
  rcases hp : (parse value).parts with _ | ⟨w, rest⟩
  · rfl
  · cases rest with
    | nil =>
      exfalso
      rw [hp] at h1
      simp at h1
    | cons w2 rest2 => rfl

/-- Witness for C5: the input "a b" parses to two top-level words and is
rejected. -/
theorem claim_c5_witness :
    ("a b" ≠ "" ∧ (parsesingleSpec "a b").parts.length ≠ 1) ∧
    evaluate parsesingleSpec "a b" [] (fun _ _ => "") =
      .error (.malformedExpression "a b") :=
  ⟨⟨by decide, by decide⟩,
   claim_c5_single_word_requirement parsesingleSpec "a b" [] (fun _ _ => "")
    (by decide) (by decide)⟩

/-- C6: Parameter evaluation looks the variable name up in the context's
environment and returns the mapped value when present (first binding
wins, as for unique-keyed dicts) and the empty string otherwise, never
failing; concretely `evaluate "$FOO" {FOO: bar}` is "bar" and
`evaluate "$MISSING" {}` is "". -/
theorem claim_c6_parameter_lookup :
    (∀ (s e : Nat) (name : String) (ctx : NodeExecutionContext),
      evaluate_node (.parameter s e name) ctx =
        .ok (evaluate_parameter_node name ctx)) ∧
    (∀ (pre post : Env) (name value : String),
      (∀ p ∈ pre, p.1 ≠ name) →
      envGet (pre ++ (name, value) :: post) name = value) ∧
    (∀ (env : Env) (name : String),
      (∀ p ∈ env, p.1 ≠ name) → envGet env name = "") ∧
    (∀ (parse : String → BNode) (ex : EnvironmentExecutor),
      parse "$FOO" = .command 0 4 [.word 0 4 [.parameter 0 4 "FOO"]] →
      evaluate parse "$FOO" [("FOO", "bar")] ex = .ok "bar") ∧
    (∀ (parse : String → BNode) (ex : EnvironmentExecutor),
      parse "$MISSING" = .command 0 8 [.word 0 8 [.parameter 0 8 "MISSING"]] →
      evaluate parse "$MISSING" [] ex = .ok "") := by
  refine ⟨?_, envGet_present, envGet_absent, ?_, ?_⟩
  · intro s e name ctx
    rw [evaluate_node]
  · intro parse ex hparse
    simp only [evaluate, hparse, evaluate_node, evaluate_word_node, splice_word_parts,
      evaluate_command_node, evaluate_nodes_as_compound_command, compound_go,
      evaluate_nodes_as_simple_command, simple_words, evaluate_parameter_node,
      envGet, BNode.parts, BNode.kind, BNode.posStart, BNode.posEnd, List.any,
      List.find?, String.reduceEq, String.reduceBEq, Char.reduceBEq, Char.reduceEq,
      reduceIte, Bool.or_false, Bool.false_or]
    decide
  · intro parse ex hparse
    simp only [evaluate, hparse, evaluate_node, evaluate_word_node, splice_word_parts,
      evaluate_command_node, evaluate_nodes_as_compound_command, compound_go,
      evaluate_nodes_as_simple_command, simple_words, evaluate_parameter_node,
      envGet, BNode.parts, BNode.kind, BNode.posStart, BNode.posEnd, List.any,
      List.find?, String.reduceEq, String.reduceBEq, Char.reduceBEq, Char.reduceEq,
      reduceIte, Bool.or_false, Bool.false_or]
    decide

/-- Witness for C6: lookup hypotheses and parser hypotheses hold at
concrete inputs. -/
theorem claim_c6_witness :
    envGet ([("A", "x")] ++ ("FOO", "bar") :: []) "FOO" = "bar" ∧
    envGet [("A", "x")] "FOO" = "" ∧
    evaluate parsesingleSpec "$FOO" [("FOO", "bar")] (fun _ _ => "") = .ok "bar" ∧
    evaluate parsesingleSpec "$MISSING" [] (fun _ _ => "") = .ok "" :=
  ⟨claim_c6_parameter_lookup.2.1 [("A", "x")] [] "FOO" "bar" (by decide),
   claim_c6_parameter_lookup.2.2.1 [("A", "x")] "FOO" (by decide),
   claim_c6_parameter_lookup.2.2.2.1 parsesingleSpec (fun _ _ => "") rfl,
   claim_c6_parameter_lookup.2.2.2.2 parsesingleSpec (fun _ _ => "") rfl⟩

/-- C7 counterexample: "a b" is a literal containing no dollar sign and
is already fully substituted (it is exactly what the evaluator produces
for suitable inputs), yet re-evaluating it does not return the
whitespace-collapsed input: it fails with `MalformedExpression`,
because the parser splits it into two top-level words. -/
theorem claim_c7_counterexample :
    ("a b".data.all (fun c => !(c == '$'))) = true ∧
    fieldSplitCollapse "a b" = "a b" ∧
    evaluate parsesingleSpec "a b" [] (fun _ _ => "") =
      .error (.malformedExpression "a b") := by
  refine ⟨by decide, by decide, ?_⟩
  simp only [evaluate, parsesingleSpec, BNode.parts,
    String.reduceEq, reduceIte]

/-- C7 (amended): re-evaluating an already-fully-substituted literal
with the same environment is a no-op — output equal to the
whitespace-collapsed input — provided the literal parses to a single
top-level word with no sub-parts and its word text contains no quote or
escape characters; a multi-word literal such as "a b" instead fails
with `MalformedExpression`, so idempotence holds only for single-word
literals. -/
theorem claim_c7_literal_idempotence :
    (∀ (parse : String → BNode) (value : String) (env : Env)
      (ex : EnvironmentExecutor) (cs ce ws we : Nat),
      value ≠ "" →
      parse value = .command cs ce [.word ws we []] →
      (∀ c ∈ (sliceStr value ws we).data, plainChar c = true) →
      evaluate parse value env ex =
        .ok (fieldSplitCollapse (sliceStr value ws we))) ∧
    (∀ (parse : String → BNode) (env : Env) (ex : EnvironmentExecutor),
      parse "abc" = .command 0 3 [.word 0 3 []] →
      evaluate parse "abc" env ex = .ok "abc") := by
  have hA : ∀ (parse : String → BNode) (value : String) (env : Env)
      (ex : EnvironmentExecutor) (cs ce ws we : Nat),
      value ≠ "" →
      parse value = .command cs ce [.word ws we []] →
      (∀ c ∈ (sliceStr value ws we).data, plainChar c = true) →
      evaluate parse value env ex =
        .ok (fieldSplitCollapse (sliceStr value ws we)) := by
    intro parse value env ex cs ce ws we h0 hparse hplain
    simp only [evaluate, if_neg h0, hparse, BNode.parts, evaluate_node]
    exact evaluate_word_node_plain ws we ⟨env, value, ex⟩ hplain
  refine ⟨hA, ?_⟩
  intro parse env ex hparse
  have h := hA parse "abc" env ex 0 3 0 3 (by decide) hparse (by decide)
  rw [h]
  decide

/-- Witness for C7: the amended theorem's hypotheses hold at the
concrete single-word literal "abc". -/
theorem claim_c7_witness :
    evaluate parsesingleSpec "abc" [] (fun _ _ => "") = .ok "abc" :=
  claim_c7_literal_idempotence.2 parsesingleSpec [] (fun _ _ => "") rfl

/-- C8: Evaluating the empty input returns the empty string immediately,
for every parser (the parse capability is never consulted), every
environment and every executor. -/
theorem claim_c8_empty_input :
    ∀ (parse : String → BNode) (env : Env) (ex : EnvironmentExecutor),
    evaluate parse "" env ex = .ok "" := by
  intro parse env ex
  rw [evaluate, if_pos rfl]

/-- C9: In the mutable-environment model, where the executor may hand
back a changed environment, an evaluation whose executor does not
mutate the environment returns the environment unchanged — whether the
result is a value or an error — because the evaluator itself only reads
it (parameter lookup) and passes it to the executor. -/
theorem claim_c9_environment_not_mutated :
    ∀ (parse : String → BNode) (value : String) (env : Env)
      (ex : EnvironmentExecutorM),
    (∀ c e, (ex c e).2 = e) →
    (evaluateM parse value env ex).2 = env := by
  intro parse value env ex hex
  rw [evaluateM]
  split
  · rfl
  · split
    · exact evaluate_nodeM_env _ ⟨value, ex⟩ env hex
    · rfl

/-- Witness for C9: a non-mutating executor on a concrete evaluation
leaves the concrete environment in place. -/
theorem claim_c9_witness :
    (∀ c e, (((fun (c : String) (e : Env) => (c, e)) : EnvironmentExecutorM) c e).2 = e) ∧
    (evaluateM parsesingleSpec "$FOO" [("FOO", "bar")]
      (fun c e => (c, e))).2 = [("FOO", "bar")] :=
  ⟨fun _ _ => rfl,
   claim_c9_environment_not_mutated parsesingleSpec "$FOO" [("FOO", "bar")]
    (fun c e => (c, e)) (fun _ _ => rfl)⟩

/-- C10: An executor output containing an unmatched quote ("don't")
makes evaluation fail with a tokenization error — a kind distinct from
`MalformedExpression`, `UnsupportedConstruct` (in all its forms) and
`ExecutionFailure` — because the word evaluator re-tokenizes the
substituted value under shell quoting rules; matched quote characters
in substituted output are consumed rather than returned verbatim. -/
theorem claim_c10_tokenization_failure :
    (∀ parse : String → BNode,
      parse "$(cmd)" = .command 0 6 [.word 0 6 [.commandsubstitution 0 6
        (.command 2 5 [.word 2 5 []])]] →
      evaluate parse "$(cmd)" [] (fun _ _ => "don't") =
        .error (.tokenization .noClosingQuotation)) ∧
    (∀ s, (EvalError.tokenization ShlexError.noClosingQuotation) ≠
      .malformedExpression s) ∧
    (∀ k, (EvalError.tokenization ShlexError.noClosingQuotation) ≠
      .unsupportedConstruct k) ∧
    (∀ op, (EvalError.tokenization ShlexError.noClosingQuotation) ≠
      .unsupportedOperator op) ∧
    (∀ k, (EvalError.tokenization ShlexError.noClosingQuotation) ≠
      .unsupportedCompoundNode k) ∧
    (∀ m, (EvalError.tokenization ShlexError.noClosingQuotation) ≠
      .executionFailure m) ∧
    (∀ parse : String → BNode,
      parse "$(cmd)" = .command 0 6 [.word 0 6 [.commandsubstitution 0 6
        (.command 2 5 [.word 2 5 []])]] →
      evaluate parse "$(cmd)" [] (fun _ _ => "say 'a b'") = .ok "say a b") := by
  refine ⟨?_, fun _ h => EvalError.noConfusion h, fun _ h => EvalError.noConfusion h,
    fun _ h => EvalError.noConfusion h, fun _ h => EvalError.noConfusion h,
    fun _ h => EvalError.noConfusion h, ?_⟩
  · intro parse hparse
    simp only [evaluate, hparse, evaluate_node, evaluate_word_node, splice_word_parts,
      evaluate_command_node, evaluate_nodes_as_compound_command, compound_go,
      evaluate_nodes_as_simple_command, simple_words, evaluate_parameter_node,
      BNode.parts, BNode.kind, BNode.posStart, BNode.posEnd, List.any,
      String.reduceEq, String.reduceBEq, Char.reduceBEq, Char.reduceEq, reduceIte,
      Bool.or_false, Bool.false_or]
    decide
  · intro parse hparse
    simp only [evaluate, hparse, evaluate_node, evaluate_word_node, splice_word_parts,
      evaluate_command_node, evaluate_nodes_as_compound_command, compound_go,
      evaluate_nodes_as_simple_command, simple_words, evaluate_parameter_node,
      BNode.parts, BNode.kind, BNode.posStart, BNode.posEnd, List.any,
      String.reduceEq, String.reduceBEq, Char.reduceBEq, Char.reduceEq, reduceIte,
      Bool.or_false, Bool.false_or]
    decide

/-- Witness for C10: the parser hypothesis holds of the spec-modelled
parser; the unmatched quote fails, the matched quotes are consumed. -/
theorem claim_c10_witness :
    evaluate parsesingleSpec "$(cmd)" [] (fun _ _ => "don't") =
      .error (.tokenization .noClosingQuotation) ∧
    evaluate parsesingleSpec "$(cmd)" [] (fun _ _ => "say 'a b'") =
      .ok "say a b" :=
  ⟨claim_c10_tokenization_failure.1 parsesingleSpec rfl,
   claim_c10_tokenization_failure.2.2.2.2.2.2 parsesingleSpec rfl⟩
